import Mathlib

/-!
Verification of the Gaussian Process regressor (`regressor.py`).

A shallow embedding of `GaussianProcessRegressor` from `src/regressor.py`.

Conventions of the embedding:
* numpy 2-d arrays are `List (List ℚ)` (list of rows); 1-d arrays are `List ℚ`.
* Exact rational arithmetic stands in for floating point; `np.linalg.inv` is
  modelled as the exact adjugate-based inverse, failing (raising `LinAlgError`)
  exactly when the determinant is zero.
* External numerical primitives (the seeded numpy `multivariate_normal`, the
  global `np.random.randn`, and `np.sqrt`) are bundled as an explicit record
  `Prims` of deterministic state-passing functions.
* Python exceptions are `Except` values; the error value of `fit` carries the
  partially mutated regressor state, since the Python method mutates fields
  in sequence before the inversion that can raise.
-/

namespace GPModel

/-! Definitions: the numpy array model, the external capabilities,
the regressor, operation sequences, and concrete witness fixtures. -/

/-- A numpy 2-d array: a list of rows. -/
abbrev Mat := List (List ℚ)

/-- Number of columns of a 2-d array (length of the first row, 0 when empty). -/
def numCols (A : Mat) : ℕ := (A.getD 0 []).length

/-- View a list matrix as a Mathlib matrix of the given shape
(out-of-range entries read as 0). -/
def toMat (r c : ℕ) (A : Mat) : Matrix (Fin r) (Fin c) ℚ :=
  Matrix.of fun i j => ((A.getD i.val []).getD j.val 0)

/-- Render a Mathlib matrix back as a list matrix. -/
def ofMat {r c : ℕ} (M : Matrix (Fin r) (Fin c) ℚ) : Mat :=
  (List.finRange r).map fun i => (List.finRange c).map fun j => M i j

/-- Determinant of a (square) list matrix, read at its own size. -/
def listDet (A : Mat) : ℚ := (toMat A.length A.length A).det

/-- The exact inverse `np.linalg.inv` computes, as a list matrix:
`det⁻¹ • adjugate`. Meaningful only when `listDet A ≠ 0`, which is exactly
when `np.linalg.inv` does not raise `LinAlgError`. -/
def listInv (A : Mat) : Mat :=
  ofMat ((listDet A)⁻¹ • (toMat A.length A.length A).adjugate)

/-- Entry `(i, j)` of a 2-d array (0 outside the array). -/
def entry (A : Mat) (i j : ℕ) : ℚ := (A.getD i []).getD j 0

/-- Model of `np.dot` on 2-d arrays: ordinary matrix product; the contracted dimension
is the row count of the right factor. -/
def npDot (A B : Mat) : Mat :=
  A.map fun row =>
    (List.range (numCols B)).map fun j =>
      ((List.range B.length).map fun k => row.getD k 0 * entry B k j).sum

/-- Model of `.T` on a 2-d array. -/
def npTranspose (A : Mat) : Mat :=
  (List.range (numCols A)).map fun j =>
    (List.range A.length).map fun i => entry A i j

/-- Elementwise `+` of two same-shaped 2-d arrays (shape read off `A`). -/
def npAddM (A B : Mat) : Mat :=
  (List.range A.length).map fun i =>
    (List.range (numCols A)).map fun j => entry A i j + entry B i j

/-- Elementwise `-` of two same-shaped 2-d arrays (shape read off `A`). -/
def npSubM (A B : Mat) : Mat :=
  (List.range A.length).map fun i =>
    (List.range (numCols A)).map fun j => entry A i j - entry B i j

/-- Scalar times a 2-d array. -/
def npSMulM (c : ℚ) (A : Mat) : Mat := A.map (List.map fun a => c * a)

/-- Model of `np.diag` on a 2-d array: extract the main diagonal. -/
def npDiagVec (A : Mat) : List ℚ :=
  (List.range (min A.length (numCols A))).map fun i => entry A i i

/-- Model of `np.diag` on a 1-d array: embed it as a diagonal matrix. -/
def npDiagMat (v : List ℚ) : Mat :=
  (List.range v.length).map fun i =>
    (List.range v.length).map fun j => if i = j then v.getD i 0 else 0

/-- A numpy array argument: either 1-d (flat) or 2-d. -/
inductive Arr where
  | vec (v : List ℚ)
  | mat (m : Mat)
deriving DecidableEq

/-- Model of `np.atleast_2d`: a flat length-`n` array becomes the single-row
`(1, n)` array; a 2-d array is unchanged. -/
def atleast2d : Arr → Mat
  | .vec v => [v]
  | .mat m => m

/-- The scalar points contained in a 2-d array, in row-major order.
Models the `.squeeze()` the kernels apply to `(1, n)` or `(n, 1)` inputs
(see the comment at `regressor.py:84-86`). -/
def arrPoints (A : Mat) : List ℚ := A.flatten

/-- Modelled from the spec: the external kernel capability (§3, Data model:
a pure function `(X, Y) -> K` returning the `n1 × n2` matrix of covariances
of the points of `X` against the points of `Y`). The kernel functions
themselves live outside `src/`; a kernel is a pointwise covariance
`k : ℚ → ℚ → ℚ` applied after squeezing the 2-d inputs to point lists. -/
def kernelMat (k : ℚ → ℚ → ℚ) (X Y : Mat) : Mat :=
  (arrPoints X).map fun xi => (arrPoints Y).map fun yj => k xi yj

/-- Function `_zero_prior_mean` (`regressor.py:20-21`): `np.zeros(x.shape[0])`. -/
def zeroPriorMean (x : Mat) : List ℚ := List.replicate x.length 0

/-- A `noise_level` argument: a float or an array (see the `fit` docstring). -/
inductive Noise where
  | scalar (s : ℚ)
  | vec (v : List ℚ)
deriving DecidableEq

/-- The noise value relevant to diagonal entry `i`. -/
def noiseAt : Noise → ℕ → ℚ
  | .scalar s, _ => s
  | .vec v, i => v.getD i 0

/-- Computation `k + noise_level ** 2 * np.eye(k.shape[0])` (`regressor.py:114`) with
numpy broadcasting: whether `noise_level` is a scalar or a length-`n`
array, entry `(i, j)` becomes `k[i][j] + noise[j]² * eye[i][j]`. -/
def regularize (k : Mat) (noise : Noise) : Mat :=
  (List.range k.length).map fun i =>
    (List.range k.length).map fun j =>
      entry k i j + (noiseAt noise j) ^ 2 * (if i = j then 1 else 0)

/-- Modelled from the spec: the external random-source capability (§6: a
seedable generator producing multivariate-normal samples deterministically
for a fixed seed) together with `np.sqrt`.

* `mvn state mean cov size` models `RandomState.multivariate_normal`
  (returning the `(size, len mean)` sample array and the advanced state);
* `randn state n` models the *global* `np.random.randn(n)` stream used at
  `regressor.py:166`;
* `sqrtQ` models `np.sqrt` entrywise. -/
structure Prims where
  mvn : ℕ → List ℚ → Mat → ℕ → Mat × ℕ
  randn : ℕ → ℕ → List ℚ × ℕ
  sqrtQ : ℚ → ℚ

/-- Seeding `np.random.RandomState(seed=s)`: the initial generator position. -/
def seedState (seed : ℕ) : ℕ := seed

/-- The one error the regressor raises itself:
`ValueError`, with the message: Need to fit the process to some training data first! -/
inductive GPErr where
  | needFit
deriving DecidableEq

/-- State of a `GaussianProcessRegressor` (`regressor.py:26-50`). Fields set
by `.fit` start as `None`. -/
structure GPR where
  kernel : ℚ → ℚ → ℚ
  rngState : ℕ
  isFit : Bool
  trainX : Option Mat
  trainY : Option Mat
  noiseLevel : Option Noise
  kMat : Option Mat
  kInv : Option Mat

/-- Constructor `__init__` (`regressor.py:26-50`): stores the kernel; uses the supplied
random state or makes its own with seed 0; marks the regressor unfit with
all training fields `None`. -/
def GPR.init (kernel : ℚ → ℚ → ℚ) (randomState : Option ℕ) : GPR :=
  { kernel := kernel
    rngState := randomState.getD (seedState 0)
    isFit := false
    trainX := none
    trainY := none
    noiseLevel := none
    kMat := none
    kInv := none }

/-- Method `_sample` (`regressor.py:52-63`): draw from the multivariate normal with
the internal `RandomState` (advancing it) and return the transpose. -/
def GPR._sample (g : GPR) (P : Prims) (mean : List ℚ) (cov : Mat)
    (size : ℕ) : Mat × GPR :=
  let r := P.mvn g.rngState mean cov size
  (npTranspose r.1, { g with rngState := r.2 })

/-- Method `sample_prior` (`regressor.py:70-92`). Returns the samples, the optional
per-point std, and the regressor with its random state advanced. -/
def GPR.samplePrior (g : GPR) (P : Prims) (x : Arr) (size : ℕ)
    (returnStd : Bool) : (Mat × Option (List ℚ)) × GPR :=
  let x2 := atleast2d x
  let cov := kernelMat g.kernel x2 x2
  let s := g._sample P (zeroPriorMean x2) cov size
  ((s.1, if returnStd then some ((npDiagVec cov).map P.sqrtQ) else none), s.2)

/-- Method `fit` (`regressor.py:94-118`). Mutates the training fields in program
order; `np.linalg.inv` raises `LinAlgError` exactly on a singular matrix,
in which case the error value carries the partially mutated state
(training fields and `_k` overwritten, `_k_inv` and `_is_fit` untouched). -/
def GPR.fit (g : GPR) (x y : Arr) (noiseLevel : Noise) : Except GPR GPR :=
  let x2 := atleast2d x
  let y2 := atleast2d y
  let g1 := { g with trainX := some x2, trainY := some y2,
                     noiseLevel := some noiseLevel }
  let k := kernelMat g1.kernel x2 x2
  let kreg := regularize k noiseLevel
  let g2 := { g1 with kMat := some kreg }
  if listDet kreg = 0 then Except.error g2
  else Except.ok { g2 with kInv := some (listInv kreg), isFit := true }

/-- The regressor state after a `fit` call, whether or not it raised. -/
def stateOf : Except GPR GPR → GPR
  | .ok g => g
  | .error g => g

/-- Method `posterior_moments` (`regressor.py:120-142`). -/
def GPR.posteriorMoments (g : GPR) (x : Arr) : Except GPErr (Mat × Mat) :=
  if g.isFit = false then Except.error GPErr.needFit
  else
    let x2 := atleast2d x
    let kStar := kernelMat g.kernel x2 (g.trainX.getD [])
    let kStarStar := kernelMat g.kernel x2 x2
    let ki := g.kInv.getD []
    let postMean := npDot (npDot kStar ki) (g.trainY.getD [])
    let postCov := npSubM kStarStar (npDot kStar (npDot ki (npTranspose kStar)))
    Except.ok (postMean, postCov)

/-- Method `sample_posterior` (`regressor.py:144-170`). `globalRng` is the state of
the global `np.random` stream consumed by the `randn` jitter at line 166;
the result carries the samples, the optional std of the perturbed
covariance, the regressor with its own random state advanced, and the
advanced global stream. -/
def GPR.samplePosterior (g : GPR) (P : Prims) (globalRng : ℕ) (x : Arr)
    (size : ℕ) (returnStd : Bool) (reg : ℚ) :
    Except GPErr ((Mat × Option (List ℚ)) × GPR × ℕ) :=
  if g.isFit = false then Except.error GPErr.needFit
  else
    match g.posteriorMoments x with
    | Except.error e => Except.error e
    | Except.ok pm =>
      let r := P.randn globalRng pm.2.length
      let cov := npAddM pm.2 (npSMulM reg (npDiagMat r.1))
      let s := g._sample P (arrPoints pm.1) cov size
      Except.ok ((s.1, if returnStd then some ((npDiagVec cov).map P.sqrtQ)
                       else none), s.2, r.2)

/-- Method `predict` (`regressor.py:172-192`). -/
def GPR.predict (g : GPR) (P : Prims) (x : Arr) (returnStd : Bool) :
    Except GPErr (Mat × Option (List ℚ)) :=
  if g.isFit = false then Except.error GPErr.needFit
  else
    match g.posteriorMoments x with
    | Except.error e => Except.error e
    | Except.ok pm =>
      Except.ok (pm.1, if returnStd then some ((npDiagVec pm.2).map P.sqrtQ)
                       else none)

/-- `A` is a rectangular `r × c` array. -/
def Rect (A : Mat) (r c : ℕ) : Prop :=
  A.length = r ∧ ∀ row ∈ A, row.length = c

/-- Witness fixture: a fitted one-point regressor state, as produced by
fitting the kernel `a * b + 1` on `x = [[0]]`, `y = [[5]]`, noise 0. -/
def gW : GPR :=
  { kernel := fun a b => a * b + 1
    rngState := 0
    isFit := true
    trainX := some [[0]]
    trainY := some [[5]]
    noiseLevel := some (.scalar 0)
    kMat := some [[1]]
    kInv := some [[1]] }

/-- Non-negativity of a noise level (scalar or per-observation). -/
def NoiseNonneg : Noise → Prop
  | .scalar s => 0 ≤ s
  | .vec v => ∀ q ∈ v, 0 ≤ q

/-- Witness fixture: a freshly constructed regressor (kernel `a * b + 1`,
default random state). -/
def gU : GPR := GPR.init (fun a b => a * b + 1) none

/-- One call to a public regressor method. -/
inductive Op where
  | samplePriorOp (x : Arr) (size : ℕ) (rstd : Bool)
  | fitOp (x y : Arr) (noise : Noise)
  | posteriorMomentsOp (x : Arr)
  | samplePosteriorOp (x : Arr) (size : ℕ) (rstd : Bool) (reg : ℚ)
  | predictOp (x : Arr) (rstd : Bool)

/-- Effect of one call on the pair (regressor state, global `np.random`
state). A raised exception leaves the state as the method left it: the
pure queries change nothing, and a failed `fit` leaves its partially
mutated state. -/
def step (P : Prims) (s : GPR × ℕ) (op : Op) : GPR × ℕ :=
  match op with
  | .samplePriorOp x size rstd => ((s.1.samplePrior P x size rstd).2, s.2)
  | .fitOp x y nz => (stateOf (s.1.fit x y nz), s.2)
  | .posteriorMomentsOp _ => s
  | .samplePosteriorOp x size rstd reg =>
      match s.1.samplePosterior P s.2 x size rstd reg with
      | .ok r => (r.2.1, r.2.2)
      | .error _ => s
  | .predictOp _ _ => s

/-- Run a sequence of calls. -/
def run (P : Prims) (s : GPR × ℕ) (ops : List Op) : GPR × ℕ :=
  ops.foldl (step P) s

/-- Witness fixture: concrete external primitives (an echoing
multivariate-normal sampler, a constant `randn` stream, identity square
root). -/
def wPrims : Prims :=
  { mvn := fun s mean _ _ => ([mean], s + 1)
    randn := fun s n => (List.replicate n 1, s + 1)
    sqrtQ := fun q => q }

/-- Counterexample fixture: primitives whose multivariate-normal sampler
echoes the covariance it is given and whose global `randn` stream returns
its own state, so outputs reveal which random stream produced the jitter. -/
def cPrims : Prims :=
  { mvn := fun s _ cov _ => (cov, s + 1)
    randn := fun s n => (List.replicate n (s : ℚ), s + 1)
    sqrtQ := fun q => q }

/-- Witness fixture: `gW` with only the fields irrelevant to sampling
(stored noise level and kernel matrix) changed. -/
def gW2 : GPR :=
  { gW with noiseLevel := some (Noise.vec [7]), kMat := some [[9]] }

/-- Witness fixture: primitives satisfying the numpy output-shape contract
(`multivariate_normal` returns a `size × len(mean)` array). -/
def nPrims : Prims :=
  { mvn := fun s mean _ k => (List.replicate k mean, s + 1)
    randn := fun s n => (List.replicate n 1, s + 1)
    sqrtQ := fun q => q }

/-- Whether an operation is a `fit` call. -/
def isFitOp : Op → Bool
  | .fitOp _ _ _ => true
  | _ => false

/-- In state `s`, this operation is not a failing `fit`. -/
def FitOkAt (s : GPR × ℕ) : Op → Prop
  | .fitOp x y nz => (s.1.fit x y nz).isOk = true
  | _ => True

/-- No `fit` call in the sequence fails, from state `s` on. -/
def RunOk (P : Prims) : GPR × ℕ → List Op → Prop
  | _, [] => True
  | s, op :: ops => FitOkAt s op ∧ RunOk P (step P s op) ops

/-- Consistency of the cache with the current training set: when the fit
flag is set, the stored kernel matrix is the regularized kernel of the
stored training inputs and the stored inverse is the inverse computed from
that stored matrix. -/
def Consistent (g : GPR) : Prop :=
  g.isFit = true →
    g.kMat = some (regularize
      (kernelMat g.kernel (g.trainX.getD []) (g.trainX.getD []))
      (g.noiseLevel.getD (Noise.scalar 0))) ∧
    g.kInv = some (listInv (g.kMat.getD []))

/-! Lemmas and claim theorems. -/

theorem length_ofMat {r c : ℕ} (M : Matrix (Fin r) (Fin c) ℚ) :
    (ofMat M).length = r := by
  simp [ofMat]

theorem getD_ofMat {r c : ℕ} (M : Matrix (Fin r) (Fin c) ℚ) (i : Fin r) :
    (ofMat M).getD i.val [] = (List.finRange c).map fun j => M i j := by
  unfold ofMat
  rw [List.getD_eq_getElem?_getD, List.getElem?_map]
  rw [List.getElem?_eq_getElem (by simp [i.isLt])]
  simp

theorem toMat_ofMat {r c : ℕ} (M : Matrix (Fin r) (Fin c) ℚ) :
    toMat r c (ofMat M) = M := by
  ext i j
  unfold toMat
  rw [Matrix.of_apply, getD_ofMat]
  rw [List.getD_eq_getElem?_getD, List.getElem?_map]
  rw [List.getElem?_eq_getElem (by simp [j.isLt])]
  simp

theorem numCols_ofMat_pos {r c : ℕ} (M : Matrix (Fin r) (Fin c) ℚ)
    (hr : 0 < r) : numCols (ofMat M) = c := by
  have := getD_ofMat M ⟨0, hr⟩
  simp only [numCols]
  rw [this]
  simp

theorem listDet_single (a : ℚ) : listDet [[a]] = a := by
  simp [listDet, toMat, Matrix.det_fin_one]

theorem listInv_single (a : ℚ) : listInv [[a]] = [[a⁻¹]] := by
  simp [listInv, listDet, toMat, ofMat, Matrix.det_fin_one,
    Matrix.adjugate_fin_one, List.finRange_succ]

theorem listInv_mul (A : Mat) (h : listDet A ≠ 0) :
    toMat A.length A.length (listInv A) * toMat A.length A.length A = 1 := by
  unfold listInv
  rw [toMat_ofMat, Matrix.smul_mul, Matrix.adjugate_mul, smul_smul]
  show ((listDet A)⁻¹ * listDet A) • (1 : Matrix _ _ ℚ) = 1
  rw [inv_mul_cancel₀ h, one_smul]

/-- Evaluation helper: `fit` with the regularized kernel matrix named. -/
theorem GPR.fit_eq (g : GPR) (x y : Arr) (noiseLevel : Noise) (kreg : Mat)
    (hk : regularize
      (kernelMat g.kernel (atleast2d x) (atleast2d x)) noiseLevel = kreg) :
    g.fit x y noiseLevel =
      (if listDet kreg = 0 then
        Except.error { g with trainX := some (atleast2d x),
                              trainY := some (atleast2d y),
                              noiseLevel := some noiseLevel,
                              kMat := some kreg }
      else
        Except.ok { g with trainX := some (atleast2d x),
                           trainY := some (atleast2d y),
                           noiseLevel := some noiseLevel,
                           kMat := some kreg,
                           kInv := some (listInv kreg),
                           isFit := true }) := by
  subst hk
  rfl

theorem getD_map_range {α : Type} (n : ℕ) (f : ℕ → α) (j : ℕ) (d : α)
    (h : j < n) : ((List.range n).map f).getD j d = f j := by
  rw [List.getD_eq_getElem?_getD, List.getElem?_map, List.getElem?_range h]
  rfl

theorem getD_map_rows (A : Mat) (f : List ℚ → List ℚ) (i : ℕ)
    (h : i < A.length) : (A.map f).getD i [] = f (A.getD i []) := by
  rw [List.getD_eq_getElem?_getD, List.getElem?_map,
    List.getElem?_eq_getElem h]
  rw [List.getD_eq_getElem?_getD, List.getElem?_eq_getElem h]
  rfl

theorem range_map_sum (n : ℕ) (f : ℕ → ℚ) :
    ((List.range n).map f).sum = ∑ i : Fin n, f i.val := by
  rw [Fin.sum_univ_eq_sum_range]
  induction n with
  | zero => simp
  | succ m ih => rw [List.range_succ, Finset.sum_range_succ, ← ih]; simp

theorem ofMat_toMat {r c : ℕ} (A : Mat) (h : Rect A r c) :
    ofMat (toMat r c A) = A := by
  obtain ⟨hr, hc⟩ := h
  apply List.ext_getElem
  · simp [ofMat, hr]
  · intro i h1 h2
    have hi : i < r := by simpa [ofMat] using h1
    apply List.ext_getElem
    · simp only [ofMat]
      rw [List.getElem_map]
      simp only [List.length_map, List.length_finRange]
      exact (hc _ (List.getElem_mem h2)).symm
    · intro j h3 h4
      simp only [ofMat, List.getElem_map, List.getElem_finRange,
        toMat, Matrix.of_apply, Fin.coe_cast]
      have hgd : A.getD i [] = A[i] := by
        rw [List.getD_eq_getElem?_getD, List.getElem?_eq_getElem h2]
        rfl
      have hgd2 : (A[i]).getD j 0 = A[i][j] := by
        rw [List.getD_eq_getElem?_getD, List.getElem?_eq_getElem h4]
        rfl
      rw [hgd, hgd2]

theorem length_npDot (A B : Mat) : (npDot A B).length = A.length := by
  simp [npDot]

theorem rect_npDot (A B : Mat) : Rect (npDot A B) A.length (numCols B) := by
  refine ⟨by simp [npDot], ?_⟩
  intro row hrow
  simp only [npDot, List.mem_map] at hrow
  obtain ⟨a, _, rfl⟩ := hrow
  simp

theorem numCols_npDot (A B : Mat) (h : A ≠ []) :
    numCols (npDot A B) = numCols B := by
  obtain ⟨a, t, rfl⟩ := List.exists_cons_of_ne_nil h
  simp [npDot, numCols]

theorem toMat_npDot (A B : Mat) :
    toMat A.length (numCols B) (npDot A B) =
      toMat A.length B.length A * toMat B.length (numCols B) B := by
  ext i j
  rw [Matrix.mul_apply]
  simp only [toMat, Matrix.of_apply, npDot]
  rw [getD_map_rows A _ i.val i.isLt]
  rw [getD_map_range _ _ j.val (0 : ℚ) j.isLt]
  rw [range_map_sum]
  rfl

theorem npDot_eq_ofMat (A B : Mat) :
    npDot A B =
      ofMat (toMat A.length B.length A * toMat B.length (numCols B) B) := by
  rw [← toMat_npDot]
  rw [ofMat_toMat _ (by simpa [length_npDot] using rect_npDot A B)]

theorem length_npTranspose (A : Mat) : (npTranspose A).length = numCols A := by
  simp [npTranspose]

theorem npDot_nil (B : Mat) : npDot [] B = [] := rfl

theorem npDot_assoc (A B C : Mat) (hC : C.length = numCols B) :
    npDot (npDot A B) C = npDot A (npDot B C) := by
  rcases Decidable.eq_or_ne B [] with hB | hB
  · subst hB
    have hCnil : C = [] := by
      have : C.length = 0 := by simpa [numCols] using hC
      exact List.length_eq_zero.mp this
    subst hCnil
    simp [npDot, numCols]
  · have hBC_len : (npDot B C).length = B.length := length_npDot B C
    have hAB_len : (npDot A B).length = A.length := length_npDot A B
    have hBC_cols : numCols (npDot B C) = numCols C := numCols_npDot B C hB
    rw [npDot_eq_ofMat (npDot A B) C, npDot_eq_ofMat A (npDot B C)]
    rw [hAB_len, hBC_len, hBC_cols, hC]
    rw [npDot_eq_ofMat A B, npDot_eq_ofMat B C, toMat_ofMat, toMat_ofMat]
    rw [hC, Matrix.mul_assoc]

theorem length_kernelMat (k : ℚ → ℚ → ℚ) (X Y : Mat) :
    (kernelMat k X Y).length = (arrPoints X).length := by
  simp [kernelMat]

theorem numCols_kernelMat (k : ℚ → ℚ → ℚ) (X Y : Mat)
    (h : arrPoints X ≠ []) :
    numCols (kernelMat k X Y) = (arrPoints Y).length := by
  obtain ⟨p, t, hp⟩ := List.exists_cons_of_ne_nil h
  simp [kernelMat, numCols, hp]

/-- C1: for every fitted regressor and every evaluation-point sequence `x`,
`posterior_moments(x)` returns exactly the pair
`(K* · K_inv · train_y, K** − K* · K_inv · K*ᵀ)`, where
`K* = kernel(x, train_x)`, `K** = kernel(x, x)` and `K_inv` is the cached
inverse of the regularized training kernel matrix. (Fitted is taken as:
the fit flag is set and the cached inverse is an `n × n` array matching the
`n` stored training points; every state produced by a successful `fit` has
this shape.) The products are stated in the left-to-right order of the spec;
exact rational arithmetic makes the association irrelevant, as the claim
asserts. -/
theorem posterior_moments_formula (g : GPR) (x : Arr) (n : ℕ)
    (hfit : g.isFit = true)
    (hl : (g.kInv.getD []).length = n)
    (hc : numCols (g.kInv.getD []) = n)
    (htx : (arrPoints (g.trainX.getD [])).length = n) :
    g.posteriorMoments x =
      Except.ok
        (npDot (npDot (kernelMat g.kernel (atleast2d x) (g.trainX.getD []))
            (g.kInv.getD [])) (g.trainY.getD []),
         npSubM (kernelMat g.kernel (atleast2d x) (atleast2d x))
           (npDot (npDot (kernelMat g.kernel (atleast2d x) (g.trainX.getD []))
               (g.kInv.getD []))
             (npTranspose
               (kernelMat g.kernel (atleast2d x) (g.trainX.getD []))))) := by
  unfold GPR.posteriorMoments
  simp only [hfit, Bool.true_eq_false, if_false]
  rcases Decidable.eq_or_ne (arrPoints (atleast2d x)) [] with hx | hx
  · have hks : kernelMat g.kernel (atleast2d x) (g.trainX.getD []) = [] := by
      simp [kernelMat, hx]
    rw [hks]
    rfl
  · have hcols : numCols (kernelMat g.kernel (atleast2d x) (g.trainX.getD []))
        = (arrPoints (g.trainX.getD [])).length :=
      numCols_kernelMat _ _ _ hx
    rw [npDot_assoc (kernelMat g.kernel (atleast2d x) (g.trainX.getD []))
      (g.kInv.getD [])
      (npTranspose (kernelMat g.kernel (atleast2d x) (g.trainX.getD [])))
      (by rw [length_npTranspose, hcols, htx, hc])]

/-- Witness for C1 at the concrete fitted state `gW` and query `[[0]]`. -/
theorem posterior_moments_formula_witness :
    gW.isFit = true ∧ (gW.kInv.getD []).length = 1 ∧
    numCols (gW.kInv.getD []) = 1 ∧
    (arrPoints (gW.trainX.getD [])).length = 1 ∧
    gW.posteriorMoments (Arr.mat [[0]]) =
      Except.ok
        (npDot (npDot (kernelMat gW.kernel (atleast2d (Arr.mat [[0]]))
            (gW.trainX.getD [])) (gW.kInv.getD [])) (gW.trainY.getD []),
         npSubM (kernelMat gW.kernel (atleast2d (Arr.mat [[0]]))
             (atleast2d (Arr.mat [[0]])))
           (npDot (npDot (kernelMat gW.kernel (atleast2d (Arr.mat [[0]]))
               (gW.trainX.getD [])) (gW.kInv.getD []))
             (npTranspose (kernelMat gW.kernel (atleast2d (Arr.mat [[0]]))
               (gW.trainX.getD []))))) :=
  ⟨rfl, rfl, rfl, rfl,
    posterior_moments_formula gW (Arr.mat [[0]]) 1 rfl rfl rfl rfl⟩

theorem length_regularize (k : Mat) (nz : Noise) :
    (regularize k nz).length = k.length := by
  simp [regularize]

theorem entry_regularize (k : Mat) (nz : Noise) (i j : ℕ)
    (hi : i < k.length) (hj : j < k.length) :
    entry (regularize k nz) i j =
      entry k i j + (noiseAt nz j) ^ 2 * (if i = j then 1 else 0) := by
  unfold regularize entry
  rw [getD_map_range _ _ i [] hi, getD_map_range _ _ j (0 : ℚ) hj]

/-- C2: `fit(x, y, noise_level)` (for equal-length inputs and non-negative
noise) stores `x`, `y`, `noise_level` as the current training set, computes
`K_train = Kernel(x, x) + noise_level² · I` (diagonal entries inflated by
the squared noise, off-diagonal entries untouched), caches the exact dense
inverse of `K_train` (proved: the cached array is a genuine left inverse),
marks the regressor fit, and a subsequent `fit` call on any regressor with
the same kernel fully replaces all of this state, independently of the previous
training state of that regressor. -/
theorem fit_spec (g : GPR) (x y : Arr) (nz : Noise) (g' : GPR) (n : ℕ)
    (hlx : (arrPoints (atleast2d x)).length = n)
    (hly : (arrPoints (atleast2d y)).length = n)
    (hnn : NoiseNonneg nz)
    (hfit : g.fit x y nz = Except.ok g') :
    g'.trainX = some (atleast2d x) ∧
    g'.trainY = some (atleast2d y) ∧
    g'.noiseLevel = some nz ∧
    g'.kMat = some (regularize
      (kernelMat g.kernel (atleast2d x) (atleast2d x)) nz) ∧
    (∀ i : ℕ, i < n →
      entry (g'.kMat.getD []) i i =
        entry (kernelMat g.kernel (atleast2d x) (atleast2d x)) i i
          + (noiseAt nz i) ^ 2) ∧
    (∀ i j : ℕ, i < n → j < n → i ≠ j →
      entry (g'.kMat.getD []) i j =
        entry (kernelMat g.kernel (atleast2d x) (atleast2d x)) i j) ∧
    g'.kInv = some (listInv (g'.kMat.getD [])) ∧
    toMat n n (g'.kInv.getD []) * toMat n n (g'.kMat.getD []) = 1 ∧
    g'.isFit = true ∧
    (∀ g₂ : GPR, g₂.kernel = g.kernel →
      g₂.fit x y nz = Except.ok
        { kernel := g₂.kernel
          rngState := g₂.rngState
          isFit := true
          trainX := g'.trainX
          trainY := g'.trainY
          noiseLevel := g'.noiseLevel
          kMat := g'.kMat
          kInv := g'.kInv }) := by
  have hk : (kernelMat g.kernel (atleast2d x) (atleast2d x)).length = n := by
    rw [length_kernelMat, hlx]
  rcases Decidable.eq_or_ne (listDet (regularize
      (kernelMat g.kernel (atleast2d x) (atleast2d x)) nz)) 0 with hdet | hdet
  · rw [GPR.fit_eq g x y nz _ rfl, if_pos hdet] at hfit
    exact absurd hfit (by simp)
  · rw [GPR.fit_eq g x y nz _ rfl, if_neg hdet] at hfit
    have hg' : g' =
        { g with trainX := some (atleast2d x)
                 trainY := some (atleast2d y)
                 noiseLevel := some nz
                 kMat := some (regularize
                   (kernelMat g.kernel (atleast2d x) (atleast2d x)) nz)
                 kInv := some (listInv (regularize
                   (kernelMat g.kernel (atleast2d x) (atleast2d x)) nz))
                 isFit := true } := by
      cases hfit
      rfl
    subst hg'
    refine ⟨rfl, rfl, rfl, rfl, ?_, ?_, rfl, ?_, rfl, ?_⟩
    · intro i hi
      simp only [Option.getD_some]
      rw [entry_regularize _ _ _ _ (by rw [hk]; exact hi) (by rw [hk]; exact hi)]
      rw [if_pos rfl, mul_one]
    · intro i j hi hj hij
      simp only [Option.getD_some]
      rw [entry_regularize _ _ _ _ (by rw [hk]; exact hi) (by rw [hk]; exact hj)]
      rw [if_neg hij, mul_zero, add_zero]
    · simp only [Option.getD_some]
      have hlen : (regularize
          (kernelMat g.kernel (atleast2d x) (atleast2d x)) nz).length = n := by
        rw [length_regularize, hk]
      have := listInv_mul _ hdet
      rw [hlen] at this
      exact this
    · intro g₂ hk2
      rw [GPR.fit_eq g₂ x y nz _ rfl, hk2, if_neg hdet]

/-- Witness for C2: fitting `gU` on one point yields exactly `gW`. -/
theorem fit_spec_witness :
    (arrPoints (atleast2d (Arr.mat [[(0 : ℚ)]]))).length = 1 ∧
    (arrPoints (atleast2d (Arr.mat [[(5 : ℚ)]]))).length = 1 ∧
    NoiseNonneg (Noise.scalar 0) ∧
    gU.fit (Arr.mat [[0]]) (Arr.mat [[5]]) (Noise.scalar 0) = Except.ok gW ∧
    (gW.trainX = some (atleast2d (Arr.mat [[0]])) ∧
     gW.trainY = some (atleast2d (Arr.mat [[5]])) ∧
     gW.noiseLevel = some (Noise.scalar 0) ∧
     gW.kMat = some (regularize (kernelMat gU.kernel
       (atleast2d (Arr.mat [[0]])) (atleast2d (Arr.mat [[0]])))
       (Noise.scalar 0)) ∧
     (∀ i : ℕ, i < 1 →
       entry (gW.kMat.getD []) i i =
         entry (kernelMat gU.kernel (atleast2d (Arr.mat [[0]]))
           (atleast2d (Arr.mat [[0]]))) i i
           + (noiseAt (Noise.scalar 0) i) ^ 2) ∧
     (∀ i j : ℕ, i < 1 → j < 1 → i ≠ j →
       entry (gW.kMat.getD []) i j =
         entry (kernelMat gU.kernel (atleast2d (Arr.mat [[0]]))
           (atleast2d (Arr.mat [[0]]))) i j) ∧
     gW.kInv = some (listInv (gW.kMat.getD [])) ∧
     toMat 1 1 (gW.kInv.getD []) * toMat 1 1 (gW.kMat.getD []) = 1 ∧
     gW.isFit = true ∧
     (∀ g₂ : GPR, g₂.kernel = gU.kernel →
       g₂.fit (Arr.mat [[0]]) (Arr.mat [[5]]) (Noise.scalar 0) = Except.ok
         { kernel := g₂.kernel
           rngState := g₂.rngState
           isFit := true
           trainX := gW.trainX
           trainY := gW.trainY
           noiseLevel := gW.noiseLevel
           kMat := gW.kMat
           kInv := gW.kInv })) := by
  have hfit : gU.fit (Arr.mat [[0]]) (Arr.mat [[5]]) (Noise.scalar 0)
      = Except.ok gW := by
    rw [GPR.fit_eq _ _ _ _ [[1]]
      (by norm_num [gU, GPR.init, seedState, atleast2d, kernelMat,
        arrPoints, regularize, noiseAt, entry, List.range_succ])]
    norm_num [listDet_single, listInv_single, gU, GPR.init, seedState,
      atleast2d, gW]
  exact ⟨rfl, rfl, le_refl 0, hfit,
    fit_spec gU _ _ _ gW 1 rfl rfl (le_refl 0) hfit⟩

theorem isFit_of_fit_ok (g : GPR) (x y : Arr) (nz : Noise) (g' : GPR)
    (h : g.fit x y nz = Except.ok g') : g'.isFit = true := by
  rw [GPR.fit_eq g x y nz _ rfl] at h
  rcases Decidable.eq_or_ne (listDet (regularize
      (kernelMat g.kernel (atleast2d x) (atleast2d x)) nz)) 0 with hdet | hdet
  · rw [if_pos hdet] at h
    exact absurd h (by simp)
  · rw [if_neg hdet] at h
    cases h
    rfl

theorem posteriorMoments_isOk (g : GPR) (x : Arr) (h : g.isFit = true) :
    (g.posteriorMoments x).isOk = true := by
  simp [GPR.posteriorMoments, h, Except.isOk, Except.toBool]

/-- C3: on an unfit regressor, `posterior_moments`, `sample_posterior` and
`predict` raise the unfit-model precondition error and change no regressor
state (nor the global random stream); `sample_prior` needs no fit — its
output depends only on the kernel and the random-state position, not on
the fit flag or any training field; and after any successful `fit` none of
the three posterior operations raises the precondition error. -/
theorem precondition_guards (P : Prims) (gl : ℕ) (x : Arr) (size : ℕ)
    (rstd : Bool) (reg : ℚ) :
    (∀ g : GPR, g.isFit = false →
       g.posteriorMoments x = Except.error GPErr.needFit ∧
       g.samplePosterior P gl x size rstd reg = Except.error GPErr.needFit ∧
       g.predict P x rstd = Except.error GPErr.needFit ∧
       step P (g, gl) (Op.posteriorMomentsOp x) = (g, gl) ∧
       step P (g, gl) (Op.samplePosteriorOp x size rstd reg) = (g, gl) ∧
       step P (g, gl) (Op.predictOp x rstd) = (g, gl)) ∧
    (∀ g₁ g₂ : GPR, g₁.kernel = g₂.kernel → g₁.rngState = g₂.rngState →
       (g₁.samplePrior P x size rstd).1 = (g₂.samplePrior P x size rstd).1 ∧
       (g₁.samplePrior P x size rstd).2.rngState
         = (g₂.samplePrior P x size rstd).2.rngState) ∧
    (∀ (g g' : GPR) (xt yt : Arr) (nz : Noise),
       g.fit xt yt nz = Except.ok g' →
       (g'.posteriorMoments x).isOk = true ∧
       (g'.samplePosterior P gl x size rstd reg).isOk = true ∧
       (g'.predict P x rstd).isOk = true) := by
  refine ⟨?_, ?_, ?_⟩
  · intro g h
    refine ⟨by simp [GPR.posteriorMoments, h],
            by simp [GPR.samplePosterior, h],
            by simp [GPR.predict, h], rfl, ?_, rfl⟩
    simp [step, GPR.samplePosterior, h]
  · intro g₁ g₂ hk hr
    cases g₁
    cases g₂
    simp only at hk hr
    subst hk
    subst hr
    exact ⟨rfl, rfl⟩
  · intro g g' xt yt nz hfit
    have h := isFit_of_fit_ok g xt yt nz g' hfit
    refine ⟨posteriorMoments_isOk g' x h, ?_, ?_⟩
    · simp [GPR.samplePosterior, GPR.posteriorMoments, h, Except.isOk, Except.toBool]
    · simp [GPR.predict, GPR.posteriorMoments, h, Except.isOk, Except.toBool]

/-- Witness for C3 at concrete states: the unfit `gU`, the fitted `gW`, and
the successful one-point fit from `gU` to `gW`. -/
theorem precondition_guards_witness :
    (gU.isFit = false ∧
     gU.posteriorMoments (Arr.mat [[0]]) = Except.error GPErr.needFit ∧
     gU.samplePosterior wPrims 0 (Arr.mat [[0]]) 1 false 1
       = Except.error GPErr.needFit ∧
     gU.predict wPrims (Arr.mat [[0]]) false = Except.error GPErr.needFit ∧
     step wPrims (gU, 0) (Op.posteriorMomentsOp (Arr.mat [[0]])) = (gU, 0) ∧
     step wPrims (gU, 0) (Op.samplePosteriorOp (Arr.mat [[0]]) 1 false 1)
       = (gU, 0) ∧
     step wPrims (gU, 0) (Op.predictOp (Arr.mat [[0]]) false) = (gU, 0)) ∧
    (gU.kernel = gW.kernel ∧ gU.rngState = gW.rngState ∧
     (gU.samplePrior wPrims (Arr.mat [[0]]) 1 false).1
       = (gW.samplePrior wPrims (Arr.mat [[0]]) 1 false).1 ∧
     (gU.samplePrior wPrims (Arr.mat [[0]]) 1 false).2.rngState
       = (gW.samplePrior wPrims (Arr.mat [[0]]) 1 false).2.rngState) ∧
    (gU.fit (Arr.mat [[0]]) (Arr.mat [[5]]) (Noise.scalar 0)
       = Except.ok gW ∧
     (gW.posteriorMoments (Arr.mat [[0]])).isOk = true ∧
     (gW.samplePosterior wPrims 0 (Arr.mat [[0]]) 1 false 1).isOk = true ∧
     (gW.predict wPrims (Arr.mat [[0]]) false).isOk = true) := by
  have hfit : gU.fit (Arr.mat [[0]]) (Arr.mat [[5]]) (Noise.scalar 0)
      = Except.ok gW := by
    rw [GPR.fit_eq _ _ _ _ [[1]]
      (by norm_num [gU, GPR.init, seedState, atleast2d, kernelMat,
        arrPoints, regularize, noiseAt, entry, List.range_succ])]
    norm_num [listDet_single, listInv_single, gU, GPR.init, seedState,
      atleast2d, gW]
  have T := precondition_guards wPrims 0 (Arr.mat [[0]]) 1 false 1
  have h1 := T.1 gU rfl
  have h2 := T.2.1 gU gW rfl rfl
  have h3 := T.2.2 gU gW (Arr.mat [[0]]) (Arr.mat [[5]]) (Noise.scalar 0) hfit
  exact ⟨⟨rfl, h1.1, h1.2.1, h1.2.2.1, h1.2.2.2.1, h1.2.2.2.2.1,
    h1.2.2.2.2.2⟩, ⟨rfl, rfl, h2.1, h2.2⟩, ⟨hfit, h3.1, h3.2.1, h3.2.2⟩⟩

/-- C4: for a fitted regressor, `sample_posterior(x, size, return_std, reg)`
computes `posterior_moments(x)`, perturbs the covariance by adding `reg`
times the diagonal embedding of fresh standard-normal draws from the global
`np.random` stream (not a fixed `reg·I`), draws the joint samples through
the shared `_sample` generator using the squeezed posterior mean, and when
`return_std` is true additionally returns the square root of the diagonal
of the perturbed covariance. -/
theorem sample_posterior_spec (g : GPR) (P : Prims) (gl : ℕ) (x : Arr)
    (size : ℕ) (reg : ℚ) (pm pc : Mat)
    (hfit : g.isFit = true)
    (hpm : g.posteriorMoments x = Except.ok (pm, pc)) :
    g.samplePosterior P gl x size true reg =
      Except.ok
        (((g._sample P (arrPoints pm)
            (npAddM pc (npSMulM reg (npDiagMat (P.randn gl pc.length).1)))
            size).1,
          some ((npDiagVec (npAddM pc (npSMulM reg
            (npDiagMat (P.randn gl pc.length).1)))).map P.sqrtQ)),
         (g._sample P (arrPoints pm)
            (npAddM pc (npSMulM reg (npDiagMat (P.randn gl pc.length).1)))
            size).2,
         (P.randn gl pc.length).2) ∧
    g.samplePosterior P gl x size false reg =
      Except.ok
        (((g._sample P (arrPoints pm)
            (npAddM pc (npSMulM reg (npDiagMat (P.randn gl pc.length).1)))
            size).1, none),
         (g._sample P (arrPoints pm)
            (npAddM pc (npSMulM reg (npDiagMat (P.randn gl pc.length).1)))
            size).2,
         (P.randn gl pc.length).2) := by
  constructor
  · unfold GPR.samplePosterior
    simp only [hfit, Bool.true_eq_false, if_false, hpm]
    simp
  · unfold GPR.samplePosterior
    simp only [hfit, Bool.true_eq_false, if_false, hpm]
    simp

/-- Witness for C4 at the fitted state `gW`, whose posterior moments at
`x = [[0]]` are `([[5]], [[0]])`. -/
theorem sample_posterior_spec_witness :
    gW.isFit = true ∧
    gW.posteriorMoments (Arr.mat [[0]]) = Except.ok ([[5]], [[0]]) ∧
    (gW.samplePosterior wPrims 0 (Arr.mat [[0]]) 1 true 1 =
      Except.ok
        (((gW._sample wPrims (arrPoints [[5]])
            (npAddM [[0]] (npSMulM 1 (npDiagMat (wPrims.randn 0
              ([[(0 : ℚ)]] : Mat).length).1))) 1).1,
          some ((npDiagVec (npAddM [[0]] (npSMulM 1 (npDiagMat
            (wPrims.randn 0 ([[(0 : ℚ)]] : Mat).length).1)))).map
            wPrims.sqrtQ)),
         (gW._sample wPrims (arrPoints [[5]])
            (npAddM [[0]] (npSMulM 1 (npDiagMat (wPrims.randn 0
              ([[(0 : ℚ)]] : Mat).length).1))) 1).2,
         (wPrims.randn 0 ([[(0 : ℚ)]] : Mat).length).2) ∧
     gW.samplePosterior wPrims 0 (Arr.mat [[0]]) 1 false 1 =
      Except.ok
        (((gW._sample wPrims (arrPoints [[5]])
            (npAddM [[0]] (npSMulM 1 (npDiagMat (wPrims.randn 0
              ([[(0 : ℚ)]] : Mat).length).1))) 1).1, none),
         (gW._sample wPrims (arrPoints [[5]])
            (npAddM [[0]] (npSMulM 1 (npDiagMat (wPrims.randn 0
              ([[(0 : ℚ)]] : Mat).length).1))) 1).2,
         (wPrims.randn 0 ([[(0 : ℚ)]] : Mat).length).2)) := by
  have hpm : gW.posteriorMoments (Arr.mat [[0]]) = Except.ok ([[5]], [[0]]) := by
    norm_num [GPR.posteriorMoments, gW, atleast2d, kernelMat, arrPoints,
      npDot, npSubM, npTranspose, entry, numCols, List.range_succ]
  exact ⟨rfl, hpm,
    sample_posterior_spec gW wPrims 0 (Arr.mat [[0]]) 1 1 [[5]] [[0]]
      rfl hpm⟩

/-- Counterexample to C5: the very same regressor (hence identically seeded
random source), identical arguments and identical training, but two
positions of the *global* `np.random` stream, produce different
`sample_posterior` outputs — the jitter at `regressor.py:166` is drawn from
`np.random.randn`, not from the shared seeded sampler. -/
theorem sample_posterior_global_rng_cex :
    gW.samplePosterior cPrims 0 (Arr.mat [[0]]) 1 false 1
      ≠ gW.samplePosterior cPrims 1 (Arr.mat [[0]]) 1 false 1 := by
  intro h
  norm_num [GPR.samplePosterior, GPR.posteriorMoments, GPR._sample, gW,
    cPrims, atleast2d, kernelMat, arrPoints, npDot, npSubM, npAddM,
    npSMulM, npDiagMat, npTranspose, entry, numCols, List.range_succ] at h

/-- C5 amended: the seeded `RandomState` drives `sample_prior` entirely, so
identically seeded sources with identical arguments reproduce
`sample_prior`; but `sample_posterior` additionally consumes the global
`np.random` stream for its jitter (`regressor.py:166`), so its output is
reproducible only when the global stream position is also identical.
Formally: `sample_prior` depends only on the kernel and random-state
position; `sample_posterior` output (samples, optional std, advanced
random-state and global-stream positions) depends only on the kernel,
random-state position, fit flag, training arrays, cached inverse, and the
global stream position. -/
theorem reproducibility (P : Prims) (x : Arr) (size : ℕ) (rstd : Bool)
    (reg : ℚ) (gl : ℕ) (g₁ g₂ : GPR)
    (hker : g₁.kernel = g₂.kernel) (hrng : g₁.rngState = g₂.rngState)
    (hf : g₁.isFit = g₂.isFit) (htx : g₁.trainX = g₂.trainX)
    (hty : g₁.trainY = g₂.trainY) (hki : g₁.kInv = g₂.kInv) :
    (g₁.samplePrior P x size rstd).1 = (g₂.samplePrior P x size rstd).1 ∧
    (g₁.samplePrior P x size rstd).2.rngState
      = (g₂.samplePrior P x size rstd).2.rngState ∧
    (g₁.samplePosterior P gl x size rstd reg).map
        (fun r => (r.1, r.2.1.rngState, r.2.2))
      = (g₂.samplePosterior P gl x size rstd reg).map
        (fun r => (r.1, r.2.1.rngState, r.2.2)) := by
  obtain ⟨k₁, r₁, f₁, tx₁, ty₁, nl₁, km₁, ki₁⟩ := g₁
  obtain ⟨k₂, r₂, f₂, tx₂, ty₂, nl₂, km₂, ki₂⟩ := g₂
  replace hker : k₁ = k₂ := hker
  replace hrng : r₁ = r₂ := hrng
  replace hf : f₁ = f₂ := hf
  replace htx : tx₁ = tx₂ := htx
  replace hty : ty₁ = ty₂ := hty
  replace hki : ki₁ = ki₂ := hki
  subst hker hrng hf htx hty hki
  refine ⟨rfl, rfl, ?_⟩
  cases f₁ <;> rfl

/-- Witness for the amended C5 at `gW` and `gW2`. -/
theorem reproducibility_witness :
    gW.kernel = gW2.kernel ∧ gW.rngState = gW2.rngState ∧
    gW.isFit = gW2.isFit ∧ gW.trainX = gW2.trainX ∧
    gW.trainY = gW2.trainY ∧ gW.kInv = gW2.kInv ∧
    ((gW.samplePrior wPrims (Arr.mat [[0]]) 1 false).1
       = (gW2.samplePrior wPrims (Arr.mat [[0]]) 1 false).1 ∧
     (gW.samplePrior wPrims (Arr.mat [[0]]) 1 false).2.rngState
       = (gW2.samplePrior wPrims (Arr.mat [[0]]) 1 false).2.rngState ∧
     (gW.samplePosterior wPrims 0 (Arr.mat [[0]]) 1 false 1).map
         (fun r => (r.1, r.2.1.rngState, r.2.2))
       = (gW2.samplePosterior wPrims 0 (Arr.mat [[0]]) 1 false 1).map
         (fun r => (r.1, r.2.1.rngState, r.2.2))) :=
  ⟨rfl, rfl, rfl, rfl, rfl, rfl,
    reproducibility wPrims (Arr.mat [[0]]) 1 false 1 0 gW gW2
      rfl rfl rfl rfl rfl rfl⟩

theorem trainX_stateOf_fit (g : GPR) (x y : Arr) (nz : Noise) :
    (stateOf (g.fit x y nz)).trainX = some (atleast2d x) := by
  rw [GPR.fit_eq g x y nz _ rfl]
  rcases Decidable.eq_or_ne (listDet (regularize
      (kernelMat g.kernel (atleast2d x) (atleast2d x)) nz)) 0 with h | h
  · rw [if_pos h]
    rfl
  · rw [if_neg h]
    rfl

theorem trainY_stateOf_fit (g : GPR) (x y : Arr) (nz : Noise) :
    (stateOf (g.fit x y nz)).trainY = some (atleast2d y) := by
  rw [GPR.fit_eq g x y nz _ rfl]
  rcases Decidable.eq_or_ne (listDet (regularize
      (kernelMat g.kernel (atleast2d x) (atleast2d x)) nz)) 0 with h | h
  · rw [if_pos h]
    rfl
  · rw [if_neg h]
    rfl

/-- Counterexample to C6: fitting on the flat 2-point input `[0, 1]` stores
`train_x` as the single-row array `[[0, 1]]` of shape `1 × 2` —
`np.atleast_2d` produces a row, not the column shape `2 × 1` the claim
asserts. -/
theorem flat_input_stored_as_row_cex :
    (stateOf (gU.fit (Arr.vec [0, 1]) (Arr.vec [3, 4])
      (Noise.scalar 1))).trainX = some [[0, 1]] ∧
    atleast2d (Arr.vec [(0 : ℚ), 1]) = [[0, 1]] ∧
    ¬ Rect [[(0 : ℚ), 1]] 2 1 := by
  refine ⟨?_, rfl, ?_⟩
  · rw [trainX_stateOf_fit]
    rfl
  · intro h
    exact absurd h.1 (by norm_num)

/-- C6 amended: `fit`, `sample_prior` and `posterior_moments` all coerce
their input through `np.atleast_2d`, which leaves 2-d input unchanged but
turns a flat length-`n` input into a single ROW of shape `1 × n` (not a
column); `fit` stores the coerced arrays, so the training set is stored as
`n × 1` columns exactly when the caller supplied it in column shape. -/
theorem atleast2d_row_storage (g : GPR) (x y : Arr) (nz : Noise)
    (v : List ℚ) (M : Mat) :
    (stateOf (g.fit x y nz)).trainX = some (atleast2d x) ∧
    (stateOf (g.fit x y nz)).trainY = some (atleast2d y) ∧
    atleast2d (Arr.vec v) = [v] ∧
    Rect [v] 1 v.length ∧
    atleast2d (Arr.mat M) = M := by
  refine ⟨trainX_stateOf_fit g x y nz, trainY_stateOf_fit g x y nz,
    rfl, ⟨rfl, ?_⟩, rfl⟩
  intro row hrow
  rw [List.mem_singleton] at hrow
  rw [hrow]

theorem numCols_of_rect (A : Mat) (r c : ℕ) (h : Rect A r c) (hr : 0 < r) :
    numCols A = c := by
  obtain ⟨hlen, hrow⟩ := h
  have hA : A ≠ [] := by
    intro hnil
    rw [hnil] at hlen
    simp at hlen
    omega
  obtain ⟨a, t, rfl⟩ := List.exists_cons_of_ne_nil hA
  have := hrow a (List.mem_cons_self a t)
  simpa [numCols] using this

theorem rect_npTranspose (A : Mat) :
    Rect (npTranspose A) (numCols A) A.length := by
  refine ⟨by simp [npTranspose], ?_⟩
  intro row hrow
  simp only [npTranspose, List.mem_map] at hrow
  obtain ⟨j, _, rfl⟩ := hrow
  simp

theorem arrPoints_length_of_unit_rows (M : Mat)
    (h : ∀ row ∈ M, row.length = 1) : (arrPoints M).length = M.length := by
  induction M with
  | nil => rfl
  | cons a t ih =>
    have ha : a.length = 1 := h a (List.mem_cons_self a t)
    have ht := ih fun row hr => h row (List.mem_cons_of_mem a hr)
    simp only [arrPoints, List.flatten_cons, List.length_append,
      List.length_cons] at ht ⊢
    omega

/-- Counterexample to C7: `sample_prior` on the flat 2-point input `[0, 1]`
builds its mean as `np.zeros(atleast_2d(x).shape[0]) = [0]` — length 1, not
`len(x) = 2` — and (with a sampler echoing its mean argument) the returned
sample array has 1 row, not `len(x)` rows. -/
theorem sample_prior_flat_mean_cex :
    zeroPriorMean (atleast2d (Arr.vec [(0 : ℚ), 1])) = [0] ∧
    (gU.samplePrior wPrims (Arr.vec [0, 1]) 5 false).1.1 = [[0]] ∧
    ([[(0 : ℚ)]] : Mat).length ≠ 2 := by
  refine ⟨rfl, ?_, by norm_num⟩
  norm_num [GPR.samplePrior, GPR._sample, gU, GPR.init, seedState, wPrims,
    atleast2d, zeroPriorMean, kernelMat, arrPoints, npTranspose, entry,
    numCols, List.range_succ]

/-- C7 amended: for `x` supplied in column shape `n × 1` (so that
`atleast_2d` is the identity) and positive `size`, `sample_prior` builds
`K = Kernel(x, x)`, uses the zero mean of length `n = len(x)`, returns —
under the numpy contract that the sampler's output is `size × len(mean)` — a
sample matrix of shape `(n, size)`, and with `return_std` set additionally
returns `sqrt(diag K)`, a vector of length `n`. For flat input the mean
instead has length 1 (see the counterexample). -/
theorem sample_prior_column_spec (g : GPR) (P : Prims) (M : Mat)
    (n size : ℕ) (hM : Rect M n 1) (hsize : 0 < size)
    (hmvn : ∀ (s : ℕ) (mean : List ℚ) (cov : Mat) (k : ℕ),
      Rect (P.mvn s mean cov k).1 k mean.length) :
    zeroPriorMean (atleast2d (Arr.mat M)) = List.replicate n 0 ∧
    Rect (g.samplePrior P (Arr.mat M) size true).1.1 n size ∧
    (g.samplePrior P (Arr.mat M) size true).1.2 =
      some ((npDiagVec (kernelMat g.kernel M M)).map P.sqrtQ) ∧
    (npDiagVec (kernelMat g.kernel M M)).length = n := by
  have hlen : M.length = n := hM.1
  have hpts : (arrPoints M).length = n := by
    rw [arrPoints_length_of_unit_rows M hM.2, hlen]
  refine ⟨by simp [zeroPriorMean, atleast2d, hlen], ?_, ?_, ?_⟩
  · show Rect (npTranspose (P.mvn g.rngState
      (zeroPriorMean (atleast2d (Arr.mat M)))
      (kernelMat g.kernel (atleast2d (Arr.mat M)) (atleast2d (Arr.mat M)))
      size).1) n size
    have hout := hmvn g.rngState
      (zeroPriorMean (atleast2d (Arr.mat M)))
      (kernelMat g.kernel (atleast2d (Arr.mat M)) (atleast2d (Arr.mat M)))
      size
    have hmean : (zeroPriorMean (atleast2d (Arr.mat M))).length = n := by
      simp [zeroPriorMean, atleast2d, hlen]
    rw [hmean] at hout
    have h2 := rect_npTranspose (P.mvn g.rngState
      (zeroPriorMean (atleast2d (Arr.mat M)))
      (kernelMat g.kernel (atleast2d (Arr.mat M)) (atleast2d (Arr.mat M)))
      size).1
    rw [numCols_of_rect _ _ _ hout hsize, hout.1] at h2
    exact h2
  · simp [GPR.samplePrior, atleast2d]
  · rcases Nat.eq_zero_or_pos n with hn | hn
    · have : M = [] := List.length_eq_zero.mp (by omega)
      subst this
      simp [npDiagVec, kernelMat, arrPoints, numCols, hn]
    · have hne : arrPoints M ≠ [] := by
        intro h
        rw [h] at hpts
        simp at hpts
        omega
      simp [npDiagVec, length_kernelMat,
        numCols_kernelMat _ _ _ hne, hpts]

/-- Witness for the amended C7 at the column input `[[0], [1]]`. -/
theorem sample_prior_column_spec_witness :
    Rect [[(0 : ℚ)], [1]] 2 1 ∧ 0 < 3 ∧
    (∀ (s : ℕ) (mean : List ℚ) (cov : Mat) (k : ℕ),
      Rect (nPrims.mvn s mean cov k).1 k mean.length) ∧
    (zeroPriorMean (atleast2d (Arr.mat [[(0 : ℚ)], [1]]))
       = List.replicate 2 0 ∧
     Rect (gU.samplePrior nPrims (Arr.mat [[0], [1]]) 3 true).1.1 2 3 ∧
     (gU.samplePrior nPrims (Arr.mat [[0], [1]]) 3 true).1.2 =
       some ((npDiagVec (kernelMat gU.kernel [[0], [1]] [[0], [1]])).map
         nPrims.sqrtQ) ∧
     (npDiagVec (kernelMat gU.kernel [[0], [1]] [[0], [1]])).length = 2) := by
  have hmvn : ∀ (s : ℕ) (mean : List ℚ) (cov : Mat) (k : ℕ),
      Rect (nPrims.mvn s mean cov k).1 k mean.length := by
    intro s mean cov k
    refine ⟨by simp [nPrims], ?_⟩
    intro row hrow
    simp only [nPrims] at hrow
    rw [List.eq_of_mem_replicate hrow]
  have hM : Rect [[(0 : ℚ)], [1]] 2 1 := by
    refine ⟨rfl, ?_⟩
    intro row hrow
    rcases List.mem_cons.mp hrow with h | h
    · rw [h]
      rfl
    · rw [List.mem_singleton.mp h]
      rfl
  exact ⟨hM, by norm_num, hmvn,
    sample_prior_column_spec gU nPrims [[0], [1]] 2 3 hM (by norm_num) hmvn⟩

/-- C8: `predict` is deterministic — it is a pure query: the call changes
neither the regressor nor the global random stream (so a second call with
identical `x` and no intervening `fit` returns the identical output), its
output is independent of the random-source position (no sampling or jitter
is involved), and it returns exactly the posterior mean of
`posterior_moments(x)`, with — when `return_std` is set — the square root
of the diagonal of the unperturbed posterior covariance. -/
theorem predict_deterministic (g : GPR) (P : Prims) (x : Arr) (rstd : Bool)
    (gl r : ℕ) (pm pc : Mat)
    (hpm : g.posteriorMoments x = Except.ok (pm, pc)) :
    step P (g, gl) (Op.predictOp x rstd) = (g, gl) ∧
    (step P (g, gl) (Op.predictOp x rstd)).1.predict P x rstd
      = g.predict P x rstd ∧
    ({ g with rngState := r }).predict P x rstd = g.predict P x rstd ∧
    g.predict P x false = Except.ok (pm, none) ∧
    g.predict P x true = Except.ok (pm, some ((npDiagVec pc).map P.sqrtQ)) := by
  have hfit : g.isFit = true := by
    by_contra hn
    simp only [Bool.not_eq_true] at hn
    simp [GPR.posteriorMoments, hn] at hpm
  refine ⟨rfl, rfl, rfl, ?_, ?_⟩
  · unfold GPR.predict
    simp only [hfit, Bool.true_eq_false, if_false, hpm]
    simp
  · unfold GPR.predict
    simp only [hfit, Bool.true_eq_false, if_false, hpm]
    simp

/-- Witness for C8 at the fitted state `gW`. -/
theorem predict_deterministic_witness :
    gW.posteriorMoments (Arr.mat [[0]]) = Except.ok ([[5]], [[0]]) ∧
    (step wPrims (gW, 0) (Op.predictOp (Arr.mat [[0]]) true) = (gW, 0) ∧
     (step wPrims (gW, 0) (Op.predictOp (Arr.mat [[0]]) true)).1.predict
        wPrims (Arr.mat [[0]]) true = gW.predict wPrims (Arr.mat [[0]]) true ∧
     ({ gW with rngState := 42 }).predict wPrims (Arr.mat [[0]]) true
        = gW.predict wPrims (Arr.mat [[0]]) true ∧
     gW.predict wPrims (Arr.mat [[0]]) false = Except.ok ([[5]], none) ∧
     gW.predict wPrims (Arr.mat [[0]]) true =
       Except.ok ([[5]], some ((npDiagVec [[0]]).map wPrims.sqrtQ))) := by
  have hpm : gW.posteriorMoments (Arr.mat [[0]]) = Except.ok ([[5]], [[0]]) := by
    norm_num [GPR.posteriorMoments, gW, atleast2d, kernelMat, arrPoints,
      npDot, npSubM, npTranspose, entry, numCols, List.range_succ]
  have T := predict_deterministic gW wPrims (Arr.mat [[0]]) true 0 42
    [[5]] [[0]] hpm
  exact ⟨hpm, T.1, T.2.1, T.2.2.1, T.2.2.2.1, T.2.2.2.2⟩

theorem isFit_stateOf_fit (g : GPR) (x y : Arr) (nz : Noise) :
    (stateOf (g.fit x y nz)).isFit = true ∨
    (stateOf (g.fit x y nz)).isFit = g.isFit := by
  rw [GPR.fit_eq g x y nz _ rfl]
  rcases Decidable.eq_or_ne (listDet (regularize
      (kernelMat g.kernel (atleast2d x) (atleast2d x)) nz)) 0 with h | h
  · rw [if_pos h]
    right
    rfl
  · rw [if_neg h]
    left
    rfl

theorem samplePosterior_ok_state (g : GPR) (P : Prims) (gl : ℕ) (x : Arr)
    (size : ℕ) (rstd : Bool) (reg : ℚ)
    (r : (Mat × Option (List ℚ)) × GPR × ℕ)
    (h : g.samplePosterior P gl x size rstd reg = Except.ok r) :
    r.2.1.kernel = g.kernel ∧ r.2.1.isFit = g.isFit ∧
    r.2.1.trainX = g.trainX ∧ r.2.1.trainY = g.trainY ∧
    r.2.1.noiseLevel = g.noiseLevel ∧ r.2.1.kMat = g.kMat ∧
    r.2.1.kInv = g.kInv := by
  rcases Bool.eq_false_or_eq_true g.isFit with hf | hf
  · simp only [GPR.samplePosterior, GPR.posteriorMoments, hf,
      Bool.true_eq_false, if_false, GPR._sample, Except.ok.injEq] at h
    subst h
    exact ⟨rfl, hf.symm, rfl, rfl, rfl, rfl, rfl⟩
  · simp [GPR.samplePosterior, hf] at h

theorem consistent_of_fit_ok (g : GPR) (x y : Arr) (nz : Noise) (g' : GPR)
    (h : g.fit x y nz = Except.ok g') : Consistent g' := by
  rw [GPR.fit_eq g x y nz _ rfl] at h
  rcases Decidable.eq_or_ne (listDet (regularize
      (kernelMat g.kernel (atleast2d x) (atleast2d x)) nz)) 0 with hd | hd
  · rw [if_pos hd] at h
    exact absurd h (by simp)
  · rw [if_neg hd] at h
    cases h
    intro _
    exact ⟨rfl, rfl⟩

theorem consistent_congr (g₁ g₂ : GPR) (hker : g₂.kernel = g₁.kernel)
    (hf : g₂.isFit = g₁.isFit) (htx : g₂.trainX = g₁.trainX)
    (hnl : g₂.noiseLevel = g₁.noiseLevel) (hkm : g₂.kMat = g₁.kMat)
    (hki : g₂.kInv = g₁.kInv) (hc : Consistent g₁) : Consistent g₂ := by
  intro h
  rw [hf] at h
  rw [hker, htx, hnl, hkm, hki]
  exact hc h

theorem step_mono (P : Prims) (s : GPR × ℕ) (op : Op)
    (h : s.1.isFit = true) : (step P s op).1.isFit = true := by
  cases op with
  | samplePriorOp xo so bo => exact h
  | fitOp xo yo no =>
    rcases isFit_stateOf_fit s.1 xo yo no with h1 | h1
    · exact h1
    · show (stateOf (s.1.fit xo yo no)).isFit = true
      rw [h1, h]
  | posteriorMomentsOp xo => exact h
  | predictOp xo bo => exact h
  | samplePosteriorOp xo so bo ro =>
    show (match s.1.samplePosterior P s.2 xo so bo ro with
      | .ok r => (r.2.1, r.2.2)
      | .error _ => s).1.isFit = true
    rcases hres : s.1.samplePosterior P s.2 xo so bo ro with e | r
    · exact h
    · have := (samplePosterior_ok_state s.1 P s.2 xo so bo ro r hres).2.1
      simp only []
      rw [this, h]

theorem step_nonfit_flag (P : Prims) (s : GPR × ℕ) (op : Op)
    (h : isFitOp op = false) : (step P s op).1.isFit = s.1.isFit := by
  cases op with
  | samplePriorOp xo so bo => rfl
  | fitOp xo yo no => exact absurd h (by simp [isFitOp])
  | posteriorMomentsOp xo => rfl
  | predictOp xo bo => rfl
  | samplePosteriorOp xo so bo ro =>
    show (match s.1.samplePosterior P s.2 xo so bo ro with
      | .ok r => (r.2.1, r.2.2)
      | .error _ => s).1.isFit = s.1.isFit
    rcases hres : s.1.samplePosterior P s.2 xo so bo ro with e | r
    · rfl
    · exact (samplePosterior_ok_state s.1 P s.2 xo so bo ro r hres).2.1

theorem step_preserves_consistent (P : Prims) (s : GPR × ℕ) (op : Op)
    (hc : Consistent s.1) (hok : FitOkAt s op) :
    Consistent (step P s op).1 := by
  cases op with
  | samplePriorOp xo so bo => exact hc
  | fitOp xo yo no =>
    rcases hres : s.1.fit xo yo no with g'' | g'
    · rw [FitOkAt, hres] at hok
      simp [Except.isOk, Except.toBool] at hok
    · show Consistent (stateOf (s.1.fit xo yo no))
      rw [hres]
      exact consistent_of_fit_ok s.1 xo yo no g' hres
  | posteriorMomentsOp xo => exact hc
  | predictOp xo bo => exact hc
  | samplePosteriorOp xo so bo ro =>
    show Consistent (match s.1.samplePosterior P s.2 xo so bo ro with
      | .ok r => (r.2.1, r.2.2)
      | .error _ => s).1
    rcases hres : s.1.samplePosterior P s.2 xo so bo ro with e | r
    · exact hc
    · have hfields := samplePosterior_ok_state s.1 P s.2 xo so bo ro r hres
      exact consistent_congr s.1 r.2.1 hfields.1 hfields.2.1
        hfields.2.2.1 hfields.2.2.2.2.1 hfields.2.2.2.2.2.1
        hfields.2.2.2.2.2.2 hc

theorem run_preserves_consistent (P : Prims) (ops : List Op) (s : GPR × ℕ)
    (hc : Consistent s.1) (hrun : RunOk P s ops) :
    Consistent (run P s ops).1 := by
  induction ops generalizing s with
  | nil => exact hc
  | cons op ops ih =>
    exact ih (step P s op)
      (step_preserves_consistent P s op hc hrun.1) hrun.2

theorem run_mono (P : Prims) (ops : List Op) (s : GPR × ℕ)
    (h : s.1.isFit = true) : (run P s ops).1.isFit = true := by
  induction ops generalizing s with
  | nil => exact h
  | cons op ops ih => exact ih (step P s op) (step_mono P s op h)

/-- Counterexample to C9: with the linear kernel `a * b`, fit successfully
on `x = [[1]]`, then fit again on `x = [[0]]`; the second kernel matrix is
singular, so the inversion raises — but the training fields and `_k` were
already overwritten while `_k_inv` and `_is_fit` were not. The resulting
reachable state has the fit flag set and a cached inverse inconsistent
with the current training set, refuting the always-consistent-over-all-operation-sequences reading. -/
theorem kinv_consistency_cex :
    ¬ Consistent (stateOf ((stateOf ((GPR.init (fun a b => a * b) none).fit
      (Arr.mat [[1]]) (Arr.mat [[2]]) (Noise.scalar 0))).fit
      (Arr.mat [[0]]) (Arr.mat [[0]]) (Noise.scalar 0))) := by
  have h1 : (GPR.init (fun a b => a * b) none).fit
      (Arr.mat [[1]]) (Arr.mat [[2]]) (Noise.scalar 0) = Except.ok
      { kernel := fun a b => a * b
        rngState := 0
        isFit := true
        trainX := some [[1]]
        trainY := some [[2]]
        noiseLevel := some (Noise.scalar 0)
        kMat := some [[1]]
        kInv := some [[1]] } := by
    rw [GPR.fit_eq _ _ _ _ [[1]]
      (by norm_num [GPR.init, seedState, atleast2d, kernelMat, arrPoints,
        regularize, noiseAt, entry, List.range_succ])]
    norm_num [listDet_single, listInv_single, GPR.init, seedState, atleast2d]
  rw [h1]
  have h2 : (stateOf (Except.ok
      ({ kernel := fun a b => a * b
         rngState := 0
         isFit := true
         trainX := some [[1]]
         trainY := some [[2]]
         noiseLevel := some (Noise.scalar 0)
         kMat := some [[1]]
         kInv := some [[1]] } : GPR))) =
      { kernel := fun a b => a * b
        rngState := 0
        isFit := true
        trainX := some [[1]]
        trainY := some [[2]]
        noiseLevel := some (Noise.scalar 0)
        kMat := some [[1]]
        kInv := some [[1]] } := rfl
  rw [h2]
  have h3 : ({ kernel := fun a b => a * b
               rngState := 0
               isFit := true
               trainX := some [[1]]
               trainY := some [[2]]
               noiseLevel := some (Noise.scalar 0)
               kMat := some [[1]]
               kInv := some [[1]] } : GPR).fit
      (Arr.mat [[0]]) (Arr.mat [[0]]) (Noise.scalar 0) = Except.error
      { kernel := fun a b => a * b
        rngState := 0
        isFit := true
        trainX := some [[0]]
        trainY := some [[0]]
        noiseLevel := some (Noise.scalar 0)
        kMat := some [[0]]
        kInv := some [[1]] } := by
    rw [GPR.fit_eq _ _ _ _ [[0]]
      (by norm_num [atleast2d, kernelMat, arrPoints, regularize, noiseAt,
        entry, List.range_succ])]
    norm_num [listDet_single, atleast2d]
  rw [h3]
  intro hcon
  have := (hcon rfl).2
  simp only [stateOf, Option.getD_some] at this
  rw [listInv_single] at this
  norm_num at this

/-- C9 amended: the fit flag starts false at construction, is never reset
by any operation, is left unchanged by every non-`fit` operation and by a
failing `fit`, and is set exactly by a successful `fit`. A successful `fit`
recomputes (never incrementally updates) the cached kernel matrix and its
inverse, restoring consistency with the current training set; the
consistency invariant is preserved along every operation sequence whose
`fit` calls all succeed. (It is NOT an invariant over all sequences: a
failing re-`fit` overwrites the training set but keeps the stale inverse —
see the counterexample.) -/
theorem fit_flag_and_consistency (P : Prims) (k : ℚ → ℚ → ℚ)
    (rs : Option ℕ) (s : GPR × ℕ) (op : Op) (ops : List Op)
    (x y : Arr) (nz : Noise) :
    (GPR.init k rs).isFit = false ∧
    (s.1.isFit = true → (step P s op).1.isFit = true) ∧
    (isFitOp op = false → (step P s op).1.isFit = s.1.isFit) ∧
    (∀ g' : GPR, s.1.fit x y nz = Except.ok g' →
      g'.isFit = true ∧ Consistent g') ∧
    (∀ g'' : GPR, s.1.fit x y nz = Except.error g'' →
      g''.isFit = s.1.isFit) ∧
    (Consistent s.1 → RunOk P s ops → Consistent (run P s ops).1) ∧
    (s.1.isFit = true → (run P s ops).1.isFit = true) := by
  refine ⟨rfl, step_mono P s op, step_nonfit_flag P s op, ?_, ?_,
    run_preserves_consistent P ops s, run_mono P ops s⟩
  · intro g' h
    exact ⟨isFit_of_fit_ok s.1 x y nz g' h,
      consistent_of_fit_ok s.1 x y nz g' h⟩
  · intro g'' h
    rw [GPR.fit_eq s.1 x y nz _ rfl] at h
    rcases Decidable.eq_or_ne (listDet (regularize
        (kernelMat s.1.kernel (atleast2d x) (atleast2d x)) nz)) 0 with
      hd | hd
    · rw [if_pos hd] at h
      cases h
      rfl
    · rw [if_neg hd] at h
      exact absurd h (by simp)

/-- Witness for the amended C9, exercising it on a fresh regressor, one
non-`fit` operation, a successful `fit`, and a two-operation run. -/
theorem fit_flag_and_consistency_witness :
    (GPR.init (fun a b => a * b + 1) none).isFit = false ∧
    isFitOp (Op.samplePriorOp (Arr.mat [[0]]) 1 false) = false ∧
    (step wPrims (gU, 0) (Op.samplePriorOp (Arr.mat [[0]]) 1 false)).1.isFit
      = gU.isFit ∧
    (gU.fit (Arr.mat [[0]]) (Arr.mat [[5]]) (Noise.scalar 0) = Except.ok gW ∧
     gW.isFit = true ∧ Consistent gW) ∧
    (Consistent gU ∧
     RunOk wPrims (gU, 0)
       [Op.fitOp (Arr.mat [[0]]) (Arr.mat [[5]]) (Noise.scalar 0),
        Op.predictOp (Arr.mat [[0]]) false] ∧
     Consistent (run wPrims (gU, 0)
       [Op.fitOp (Arr.mat [[0]]) (Arr.mat [[5]]) (Noise.scalar 0),
        Op.predictOp (Arr.mat [[0]]) false]).1) ∧
    (gW.isFit = true ∧
     (run wPrims (gW, 0) [Op.predictOp (Arr.mat [[0]]) false]).1.isFit
       = true) := by
  have hfit : gU.fit (Arr.mat [[0]]) (Arr.mat [[5]]) (Noise.scalar 0)
      = Except.ok gW := by
    rw [GPR.fit_eq _ _ _ _ [[1]]
      (by norm_num [gU, GPR.init, seedState, atleast2d, kernelMat,
        arrPoints, regularize, noiseAt, entry, List.range_succ])]
    norm_num [listDet_single, listInv_single, gU, GPR.init, seedState,
      atleast2d, gW]
  have hcU : Consistent gU := by
    intro h
    simp [gU, GPR.init] at h
  have hrun : RunOk wPrims (gU, 0)
      [Op.fitOp (Arr.mat [[0]]) (Arr.mat [[5]]) (Noise.scalar 0),
       Op.predictOp (Arr.mat [[0]]) false] := by
    refine ⟨?_, trivial, trivial⟩
    rw [FitOkAt, hfit]
    rfl
  have T := fit_flag_and_consistency wPrims (fun a b => a * b + 1) none
    (gU, 0) (Op.samplePriorOp (Arr.mat [[0]]) 1 false)
    [Op.fitOp (Arr.mat [[0]]) (Arr.mat [[5]]) (Noise.scalar 0),
     Op.predictOp (Arr.mat [[0]]) false]
    (Arr.mat [[0]]) (Arr.mat [[5]]) (Noise.scalar 0)
  have T2 := fit_flag_and_consistency wPrims (fun a b => a * b + 1) none
    (gW, 0) (Op.samplePriorOp (Arr.mat [[0]]) 1 false)
    [Op.predictOp (Arr.mat [[0]]) false]
    (Arr.mat [[0]]) (Arr.mat [[5]]) (Noise.scalar 0)
  have hok := T.2.2.2.1 gW hfit
  exact ⟨T.1, rfl, T.2.2.1 rfl, ⟨hfit, hok.1, hok.2⟩,
    ⟨hcU, hrun, T.2.2.2.2.2.1 hcU hrun⟩,
    ⟨rfl, T2.2.2.2.2.2.2 rfl⟩⟩

/-- C10: when `fit` raises (the inversion fails, i.e. exactly when the
regularized kernel matrix is singular), the fit flag and the cached inverse
retain their previous values — in particular a never-fit regressor stays
unfit and the posterior operations still raise the precondition error —
even though `train_x`, `train_y`, the noise level and the kernel matrix
`_k` have already been overwritten by the failed call: `fit` is not
atomic. -/
theorem fit_failure_partial_mutation (g : GPR) (x y : Arr) (nz : Noise)
    (g'' : GPR) (P : Prims) (gl : ℕ) (xq : Arr) (size : ℕ) (rstd : Bool)
    (reg : ℚ)
    (herr : g.fit x y nz = Except.error g'') :
    g''.isFit = g.isFit ∧
    g''.kInv = g.kInv ∧
    g''.rngState = g.rngState ∧
    g''.kernel = g.kernel ∧
    g''.trainX = some (atleast2d x) ∧
    g''.trainY = some (atleast2d y) ∧
    g''.noiseLevel = some nz ∧
    g''.kMat = some (regularize
      (kernelMat g.kernel (atleast2d x) (atleast2d x)) nz) ∧
    listDet (regularize (kernelMat g.kernel (atleast2d x) (atleast2d x)) nz)
      = 0 ∧
    (g.isFit = false →
      g''.posteriorMoments xq = Except.error GPErr.needFit ∧
      g''.samplePosterior P gl xq size rstd reg
        = Except.error GPErr.needFit ∧
      g''.predict P xq rstd = Except.error GPErr.needFit) := by
  rw [GPR.fit_eq g x y nz _ rfl] at herr
  rcases Decidable.eq_or_ne (listDet (regularize
      (kernelMat g.kernel (atleast2d x) (atleast2d x)) nz)) 0 with hd | hd
  · rw [if_pos hd] at herr
    cases herr
    refine ⟨rfl, rfl, rfl, rfl, rfl, rfl, rfl, rfl, hd, ?_⟩
    intro hunfit
    exact ⟨by simp [GPR.posteriorMoments, hunfit],
      by simp [GPR.samplePosterior, hunfit],
      by simp [GPR.predict, hunfit]⟩
  · rw [if_neg hd] at herr
    exact absurd herr (by simp)

/-- Witness for C10: fitting the linear kernel `a * b` on the single point
`x = [[0]]` makes the training kernel matrix `[[0]]`, which is singular. -/
theorem fit_failure_partial_mutation_witness :
    ((GPR.init (fun a b => a * b) none).fit (Arr.mat [[0]]) (Arr.mat [[0]])
      (Noise.scalar 0) = Except.error
      { kernel := fun a b => a * b
        rngState := 0
        isFit := false
        trainX := some [[0]]
        trainY := some [[0]]
        noiseLevel := some (Noise.scalar 0)
        kMat := some [[0]]
        kInv := none }) ∧
    (({ kernel := fun a b => a * b
        rngState := 0
        isFit := false
        trainX := some [[0]]
        trainY := some [[0]]
        noiseLevel := some (Noise.scalar 0)
        kMat := some [[0]]
        kInv := none } : GPR).isFit
       = (GPR.init (fun a b => a * b) none).isFit ∧
     ({ kernel := fun a b => a * b
        rngState := 0
        isFit := false
        trainX := some [[0]]
        trainY := some [[0]]
        noiseLevel := some (Noise.scalar 0)
        kMat := some [[0]]
        kInv := none } : GPR).kInv
       = (GPR.init (fun a b => a * b) none).kInv ∧
     ({ kernel := fun a b => a * b
        rngState := 0
        isFit := false
        trainX := some [[0]]
        trainY := some [[0]]
        noiseLevel := some (Noise.scalar 0)
        kMat := some [[0]]
        kInv := none } : GPR).posteriorMoments (Arr.mat [[0]])
       = Except.error GPErr.needFit ∧
     ({ kernel := fun a b => a * b
        rngState := 0
        isFit := false
        trainX := some [[0]]
        trainY := some [[0]]
        noiseLevel := some (Noise.scalar 0)
        kMat := some [[0]]
        kInv := none } : GPR).predict wPrims (Arr.mat [[0]]) false
       = Except.error GPErr.needFit) := by
  have herr : (GPR.init (fun a b => a * b) none).fit (Arr.mat [[0]])
      (Arr.mat [[0]]) (Noise.scalar 0) = Except.error
      { kernel := fun a b => a * b
        rngState := 0
        isFit := false
        trainX := some [[0]]
        trainY := some [[0]]
        noiseLevel := some (Noise.scalar 0)
        kMat := some [[0]]
        kInv := none } := by
    rw [GPR.fit_eq _ _ _ _ [[0]]
      (by norm_num [GPR.init, seedState, atleast2d, kernelMat, arrPoints,
        regularize, noiseAt, entry, List.range_succ])]
    norm_num [listDet_single, GPR.init, seedState, atleast2d]
  have T := fit_failure_partial_mutation (GPR.init (fun a b => a * b) none)
    (Arr.mat [[0]]) (Arr.mat [[0]]) (Noise.scalar 0) _ wPrims 0
    (Arr.mat [[0]]) 1 false 1 herr
  have hu := T.2.2.2.2.2.2.2.2.2 rfl
  exact ⟨herr, T.1, T.2.1, hu.1, hu.2.2⟩

end GPModel
